import Mathlib

/-
Verification of the NativeCollation collation engine wrapper
(libcore/luni/src/main/native/libcore_icu_NativeCollation.cpp).

The development shallowly embeds the wrapper code: JNI strings are
abstract identifiers, the JNI environment is a function from strings to
their (possibly unavailable) character data, and the underlying ICU
engine is an abstract structure of functions.  The resource actions the
code performs against the JNI environment and the engine (pinning chars,
taking global references, opening/closing engine iterators) are recorded
as an event trace so that the pin/release discipline can be stated and
proved over arbitrary operation sequences.
-/

namespace NativeCollation

/-- A jstring reference, abstracted as an identifier. -/
abbrev JString := Nat

/-- A UTF-16 code unit (jchar). -/
abbrev UChar := Nat

/-- An opaque UCollator handle. -/
abbrev UCollator := Nat

/-- ICU status code U_ZERO_ERROR. -/
def U_ZERO_ERROR : Int := 0

/-- ICU status code U_ILLEGAL_ARGUMENT_ERROR. -/
def U_ILLEGAL_ARGUMENT_ERROR : Int := 1

/-- The JNI environment, as far as this file needs it: which strings are
readable, and with which character data.  GetStringChars on string `s`
succeeds exactly when `getStringChars s` is `some`; ScopedUtfChars
similarly reads modified-UTF-8 data via `getUtfChars`. -/
structure Env where
  getStringChars : JString → Option (List UChar)
  getUtfChars : JString → Option (List UChar)

/-- The underlying ICU collation engine, abstracted as pure functions.
`sortKey c s` is the full sort-key byte sequence ucol_getSortKey computes
for source `s` under collator `c`; `strcoll` is ucol_strcoll; the status
fields give the UErrorCode reported by ucol_openElements and
ucol_setText; the addr fields give the (cast) pointers returned by
ucol_open and ucol_openRules. -/
structure Icu where
  sortKey : UCollator → List UChar → List Nat
  strcoll : UCollator → List UChar → List UChar → Int
  openElemsStatus : Option UCollator → List UChar → Int
  setTextStatus : Nat → List UChar → Int
  openCollatorAddr : List UChar → Int
  openRulesAddr : List UChar → Int → Int → Int

/-- One resource action performed by the wrapper against the JNI
environment or the ICU engine. -/
inductive Ev where
  | getChars (s : JString)
  | releaseChars (s : JString)
  | newGlobalRef (s : JString)
  | deleteGlobalRef (s : JString)
  | openElements (h : Nat)
  | setText (h : Nat)
  | closeElements (h : Nat)
deriving DecidableEq

/-- The fields of the C++ CollationElements object: the engine iterator
handle, the global string reference, and the pinned character data. -/
structure CE where
  mElements : Option Nat
  mString : Option JString
  mChars : Option (List UChar)
deriving DecidableEq

/-- The default-constructed CollationElements: all three fields NULL. -/
def CE.init : CE := ⟨none, none, none⟩

/-- CollationElements together with the engine allocator counter used to
model the fresh handles returned by ucol_openElements. -/
structure St where
  ce : CE
  fresh : Nat
deriving DecidableEq

/-- CollationElements::release.  If an engine iterator is held and
`closeCollator` is set, it is closed (the field is not nulled, matching
the source).  If chars are pinned, they are released and the global
string reference dropped, and both fields are nulled. -/
def CE.release (ce : CE) (closeCollator : Bool) : CE × List Ev :=
  let closeEvs : List Ev :=
    match ce.mElements, closeCollator with
    | some h, true => [Ev.closeElements h]
    | _, _ => []
  match ce.mChars with
  | some _ =>
      ({ ce with mChars := none, mString := none },
        closeEvs ++ [Ev.releaseChars (ce.mString.getD 0), Ev.deleteGlobalRef (ce.mString.getD 0)])
  | none => (ce, closeEvs)

/-- CollationElements::start.  Releases any previous pin (without closing
the engine iterator), then pins the new string.  On success a global
reference is taken and the engine iterator is either created
(ucol_openElements, when none exists yet) or repositioned
(ucol_setText); the call returns that status.  When GetStringChars
fails, U_ILLEGAL_ARGUMENT_ERROR is returned. -/
def CE.start (icu : Icu) (env : Env) (st : St) (string : JString) (collator : Option UCollator) :
    St × Int × List Ev :=
  let rel := st.ce.release false
  match env.getStringChars string with
  | some chars =>
      let acq : List Ev := [Ev.getChars string, Ev.newGlobalRef string]
      let ce2 : CE := { rel.1 with mString := some string, mChars := some chars }
      match rel.1.mElements with
      | none =>
          (⟨{ ce2 with mElements := some st.fresh }, st.fresh + 1⟩,
            icu.openElemsStatus collator chars,
            rel.2 ++ acq ++ [Ev.openElements st.fresh])
      | some h =>
          (⟨ce2, st.fresh⟩, icu.setTextStatus h chars, rel.2 ++ acq ++ [Ev.setText h])
  | none =>
      (⟨rel.1, st.fresh⟩, U_ILLEGAL_ARGUMENT_ERROR, rel.2)

/-- NativeCollation_closeElements, native part: release(env, true) and
delete the object.  The trace holds every resource action performed. -/
def closeElementsNative (ce : CE) : List Ev := (ce.release true).2

/-- NativeCollation_compare: either string being unreadable yields 0;
otherwise ucol_strcoll decides. -/
def NativeCollation_compare (icu : Icu) (env : Env) (collator : UCollator)
    (lhs rhs : JString) : Int :=
  match env.getStringChars lhs with
  | none => 0
  | some l =>
      match env.getStringChars rhs with
      | none => 0
      | some r => icu.strcoll collator l r

/-- Modelled from the spec: the external encoder contract of
ucol_getSortKey (spec 4.3) — the call always reports the required key
size, and fills the destination with the full key exactly when it fits
in the supplied capacity (on overflow only a truncated prefix is
written). -/
def ucol_getSortKey (icu : Icu) (collator : UCollator) (src : List UChar)
    (capacity : Nat) : Nat × List Nat :=
  let key := icu.sortKey collator src
  (key.length, if key.length ≤ capacity then key else key.take capacity)

/-- The two-phase encode inside NativeCollation_getSortKey: first into the
128-byte stack buffer (capacity sizeof(byteArray) - 1 = 127); when the
reported size exceeds that, a heap buffer is allocated and the encoder is
re-invoked with capacity equal to the reported size.  The Bool records
whether the heap buffer was allocated. -/
def sortKeyTwoPhase (icu : Icu) (collator : UCollator) (src : List UChar) :
    Nat × List Nat × Bool :=
  let stackCapacity := 128 - 1
  let first := ucol_getSortKey icu collator src stackCapacity
  if first.1 > stackCapacity then
    let second := ucol_getSortKey icu collator src first.1
    (second.1, second.2, true)
  else
    (first.1, first.2, false)

/-- Result of NativeCollation_getSortKey: `err` is the NULL return with a
pending exception (unreadable source, per the ScopedStringChars layer),
`nullArray` the NULL return without exception (zero key size), and
`bytes` a fresh byte array. -/
inductive SortKeyResult where
  | err
  | nullArray
  | bytes (b : List Nat)
deriving DecidableEq

/-- NativeCollation_getSortKey: unreadable source yields the error NULL;
otherwise the two-phase encode runs and the first byteArraySize bytes of
the used buffer are copied out, with a NULL (non-error) result when the
size is zero. -/
def NativeCollation_getSortKey (icu : Icu) (env : Env) (collator : UCollator)
    (source : JString) : SortKeyResult :=
  match env.getStringChars source with
  | none => SortKeyResult.err
  | some chars =>
      let r := sortKeyTwoPhase icu collator chars
      if r.1 = 0 then SortKeyResult.nullArray
      else SortKeyResult.bytes (r.2.1.take r.1)

/-- Direct single encode into a buffer large enough for the whole key,
stated from the spec words for the refinement comparison of claim C5. -/
def directSortKey (icu : Icu) (collator : UCollator) (src : List UChar) : List Nat :=
  (ucol_getSortKey icu collator src (icu.sortKey collator src).length).2

/-- NativeCollation_openCollator: unreadable locale yields handle 0;
otherwise the cast of the pointer from ucol_open. -/
def NativeCollation_openCollator (icu : Icu) (env : Env) (locale : JString) : Int :=
  match env.getUtfChars locale with
  | none => 0
  | some chars => icu.openCollatorAddr chars

/-- NativeCollation_openCollatorFromRules: unreadable rule string yields
-1; otherwise the cast of the pointer from ucol_openRules. -/
def NativeCollation_openCollatorFromRules (icu : Icu) (env : Env) (rules : JString)
    (mode strength : Int) : Int :=
  match env.getStringChars rules with
  | none => -1
  | some chars => icu.openRulesAddr chars mode strength

/-- NativeCollation_getCollationElementIterator: unreadable source yields
-1; otherwise a fresh CollationElements is started on the source, and the
object address (abstracted as the nonzero `ceAddr`) is returned on
U_ZERO_ERROR, 0 on any other engine status.  The second component is the
resulting object state, when one is returned. -/
def NativeCollation_getCollationElementIterator (icu : Icu) (env : Env)
    (collator : UCollator) (source : JString) (ceAddr : Int) : Int × Option St :=
  match env.getStringChars source with
  | none => (-1, none)
  | some _ =>
      let r := CE.start icu env ⟨CE.init, 0⟩ source (some collator)
      if r.2.1 = U_ZERO_ERROR then (ceAddr, some r.1) else (0, none)

/-- The managed-layer view of one iterator: `addr` is the stored native
address, `none` once closed (or never opened). -/
structure Iter where
  addr : Option St
deriving DecidableEq

/-- Modelled from the spec: close is guarded by the managed wrapper (the
libcore Java layer, which is part of the repository but not under src),
which nulls the stored address on first close, making close idempotent;
the native close itself performs release(env, true) and deletes the
object. -/
def Iter.close (it : Iter) : Iter × List Ev :=
  match it.addr with
  | some st => (⟨none⟩, closeElementsNative st.ce)
  | none => (⟨none⟩, [])

/-- One operation on an iterator: start/setText with a string (setText is
start with no collator supplied), or close. -/
inductive Op where
  | start (s : JString) (c : Option UCollator)
  | close
deriving DecidableEq

/-- Execute one operation on the iterator, producing the trace of
resource actions it performs.  Operations after close act on no object
and perform nothing. -/
def Iter.step (icu : Icu) (env : Env) (it : Iter) : Op → Iter × List Ev
  | Op.start s c =>
      match it.addr with
      | some st =>
          let r := CE.start icu env st s c
          (⟨some r.1⟩, r.2.2)
      | none => (it, [])
  | Op.close => it.close

/-- Execute a sequence of operations, concatenating the traces. -/
def Iter.run (icu : Icu) (env : Env) (it : Iter) : List Op → Iter × List Ev
  | [] => (it, [])
  | op :: ops =>
      let r := it.step icu env op
      let rest := Iter.run icu env r.1 ops
      (rest.1, r.2 ++ rest.2)

/-- Contribution of one event to the count of outstanding pinned-chars
buffers. -/
def pinDelta : Ev → Int
  | Ev.getChars _ => 1
  | Ev.releaseChars _ => -1
  | _ => 0

/-- Contribution of one event to the count of outstanding global string
references. -/
def grefDelta : Ev → Int
  | Ev.newGlobalRef _ => 1
  | Ev.deleteGlobalRef _ => -1
  | _ => 0

/-- Net number of outstanding pins after a trace. -/
def pinned (t : List Ev) : Int := (t.map pinDelta).sum

/-- Net number of outstanding global references after a trace. -/
def grefs (t : List Ev) : Int := (t.map grefDelta).sum

/-- Starting from `n` outstanding units, every running total along the
trace stays between 0 and 1: never two resources at once, never a
release of a resource that is not held. -/
def deltaOkB (f : Ev → Int) : Int → List Ev → Bool
  | _, [] => true
  | n, e :: t => decide (0 ≤ n + f e) && decide (n + f e ≤ 1) && deltaOkB f (n + f e) t

/-- True exactly for events that touch the engine iterator (create,
reposition, destroy) — the calls that can move the internal position. -/
def isEngineEv : Ev → Bool
  | Ev.openElements _ => true
  | Ev.setText _ => true
  | Ev.closeElements _ => true
  | _ => false

/-- True exactly for ucol_openElements events. -/
def isOpenElementsEv : Ev → Bool
  | Ev.openElements _ => true
  | _ => false

/-- True exactly for ucol_setText events. -/
def isSetTextEv : Ev → Bool
  | Ev.setText _ => true
  | _ => false

/-- True exactly for ucol_closeElements events. -/
def isCloseElementsEv : Ev → Bool
  | Ev.closeElements _ => true
  | _ => false

/-- True exactly for ReleaseStringChars events. -/
def isReleaseCharsEv : Ev → Bool
  | Ev.releaseChars _ => true
  | _ => false

/-- True exactly for DeleteGlobalRef events. -/
def isDeleteGlobalRefEv : Ev → Bool
  | Ev.deleteGlobalRef _ => true
  | _ => false

/-- Byte-lexicographic comparison of two byte sequences: first differing
byte decides, a strict prefix is smaller. -/
def byteLexCompare : List Nat → List Nat → Ordering
  | [], [] => Ordering.eq
  | [], _ :: _ => Ordering.lt
  | _ :: _, [] => Ordering.gt
  | a :: la, b :: lb =>
      if a < b then Ordering.lt
      else if b < a then Ordering.gt
      else byteLexCompare la lb

/-- The ordering named by the sign of a comparison integer. -/
def signOrd (n : Int) : Ordering :=
  if n < 0 then Ordering.lt else if n = 0 then Ordering.eq else Ordering.gt

/-- The comparison integer for an ordering. -/
def ordToInt : Ordering → Int
  | Ordering.lt => -1
  | Ordering.eq => 0
  | Ordering.gt => 1

/-- Number of pins a CollationElements currently holds: one when chars
are pinned, zero otherwise. -/
def pinsOfCE (ce : CE) : Int := if ce.mChars.isSome then 1 else 0

/-- Number of pins an iterator currently holds. -/
def pinsOf (it : Iter) : Int :=
  match it.addr with
  | some st => pinsOfCE st.ce
  | none => 0

/-- The CollationElements fields are consistent: chars are pinned exactly
when a global string reference is held. -/
def consistentCE (ce : CE) : Prop := ce.mChars.isSome = ce.mString.isSome

/-- Invariant of the iterator wrapper state. -/
def InvI (it : Iter) : Prop :=
  match it.addr with
  | some st => consistentCE st.ce
  | none => True

/-- Concrete JNI environment used to evaluate the theorems: string 0 is
unreadable, string 1 is readable and empty, every other string s reads
as the one-character text [s]; no string has readable UTF-8 data. -/
def envW : Env :=
  ⟨fun s => if s = 0 then none else if s = 1 then some [] else some [s],
   fun _ => none⟩

/-- Concrete engine used to evaluate the theorems: the sort key of a
text is the text itself, strcoll is byte-lexicographic comparison of the
sort keys, and ucol_openElements always reports status 3. -/
def icuW : Icu where
  sortKey := fun _ s => s
  strcoll := fun _ a b => ordToInt (byteLexCompare a b)
  openElemsStatus := fun _ _ => 3
  setTextStatus := fun _ _ => 0
  openCollatorAddr := fun _ => 7
  openRulesAddr := fun _ _ _ => 7

/-- Concrete engine whose ucol_openElements reports success, used where a
witness needs an iterator to open. -/
def icuOk : Icu :=
  { icuW with openElemsStatus := fun _ _ => 0 }

theorem start_unreadable_status (icu : Icu) (env : Env) (st : St) (s : JString)
    (c : Option UCollator) (h : env.getStringChars s = none) :
    (CE.start icu env st s c).2.1 = U_ILLEGAL_ARGUMENT_ERROR := by
  obtain ⟨⟨me, ms, mc⟩, k⟩ := st
  cases me <;> cases mc <;> simp [CE.start, CE.release, h]

/-- Claim C2: when pinning the new string fails, start returns
U_ILLEGAL_ARGUMENT_ERROR, the engine iterator field is untouched, the
iterator ends unbound (no pinned chars, no global reference), and the
trace holds no pin acquisition, no global-reference acquisition and no
engine call that could move the internal position. -/
theorem start_pin_failure (icu : Icu) (env : Env) (st : St) (s : JString)
    (c : Option UCollator) (hcons : consistentCE st.ce)
    (h : env.getStringChars s = none) :
    (CE.start icu env st s c).2.1 = U_ILLEGAL_ARGUMENT_ERROR ∧
    (CE.start icu env st s c).1.ce.mElements = st.ce.mElements ∧
    (CE.start icu env st s c).1.ce.mChars = none ∧
    (CE.start icu env st s c).1.ce.mString = none ∧
    (∀ e ∈ (CE.start icu env st s c).2.2,
      pinDelta e ≠ 1 ∧ grefDelta e ≠ 1 ∧ isEngineEv e = false) := by
  obtain ⟨⟨me, ms, mc⟩, k⟩ := st
  simp [consistentCE] at hcons
  cases mc <;> cases ms <;> simp at hcons <;> cases me <;>
    simp [CE.start, CE.release, h, pinDelta, grefDelta, isEngineEv]

/-- Evaluation of start_pin_failure on a concrete unreadable string. -/
theorem start_pin_failure_witness :
    envW.getStringChars 0 = none ∧
    (CE.start icuW envW ⟨CE.init, 0⟩ 0 none).2.1 = U_ILLEGAL_ARGUMENT_ERROR :=
  ⟨by decide, (start_pin_failure icuW envW ⟨CE.init, 0⟩ 0 none rfl (by decide)).1⟩

/-- Claim C10: when a bound iterator is rebound to a string that cannot
be pinned, the old pin and global reference are already gone — the whole
trace is exactly the release of the old string — and the call ends with
no pin at all, even though it failed. -/
theorem rebind_failure_unpins_old (icu : Icu) (env : Env) (st : St) (s : JString)
    (c : Option UCollator) (oldS : JString) (oldChars : List UChar)
    (hs : st.ce.mString = some oldS) (hc : st.ce.mChars = some oldChars)
    (hfail : env.getStringChars s = none) :
    (CE.start icu env st s c).1.ce.mChars = none ∧
    (CE.start icu env st s c).1.ce.mString = none ∧
    (CE.start icu env st s c).2.2 = [Ev.releaseChars oldS, Ev.deleteGlobalRef oldS] ∧
    (CE.start icu env st s c).2.1 = U_ILLEGAL_ARGUMENT_ERROR := by
  obtain ⟨⟨me, ms, mc⟩, k⟩ := st
  cases hs
  cases hc
  cases me <;> simp [CE.start, CE.release, hfail]

/-- Evaluation of rebind_failure_unpins_old on a concrete bound state. -/
theorem rebind_failure_unpins_old_witness :
    envW.getStringChars 0 = none ∧
    (CE.start icuW envW ⟨⟨none, some 2, some [2]⟩, 0⟩ 0 none).2.2 =
      [Ev.releaseChars 2, Ev.deleteGlobalRef 2] :=
  ⟨by decide,
    (rebind_failure_unpins_old icuW envW ⟨⟨none, some 2, some [2]⟩, 0⟩ 0 none 2 [2]
      rfl rfl (by decide)).2.2.1⟩

/-- Claim C7: an unreadable string makes compare return 0 (EQUAL) in
either argument position, while the same string makes start fail with
U_ILLEGAL_ARGUMENT_ERROR — two different policies for the same input. -/
theorem unreadable_policy_divergence (icu : Icu) (env : Env) (collator : UCollator)
    (st : St) (s t : JString) (c : Option UCollator)
    (h : env.getStringChars s = none) :
    NativeCollation_compare icu env collator s t = 0 ∧
    NativeCollation_compare icu env collator t s = 0 ∧
    (CE.start icu env st s c).2.1 = U_ILLEGAL_ARGUMENT_ERROR ∧
    U_ILLEGAL_ARGUMENT_ERROR ≠ U_ZERO_ERROR := by
  refine ⟨by simp [NativeCollation_compare, h], ?_,
    start_unreadable_status icu env st s c h, by decide⟩
  cases ht : env.getStringChars t <;> simp [NativeCollation_compare, h, ht]

/-- Evaluation of unreadable_policy_divergence on a concrete string. -/
theorem unreadable_policy_divergence_witness :
    envW.getStringChars 0 = none ∧
    NativeCollation_compare icuW envW 5 0 2 = 0 ∧
    NativeCollation_compare icuW envW 5 2 0 = 0 :=
  ⟨by decide,
    (unreadable_policy_divergence icuW envW 5 ⟨CE.init, 0⟩ 0 2 none (by decide)).1,
    (unreadable_policy_divergence icuW envW 5 ⟨CE.init, 0⟩ 0 2 none (by decide)).2.1⟩

/-- Claim C3: the first close emits exactly one ucol_closeElements when an
engine iterator is held (zero otherwise) and exactly one chars release
and one global-reference delete when a pin is held (zero otherwise); the
stored address is nulled, so a second close of the same iterator releases
nothing; and closing a never-bound iterator releases nothing at all. -/
theorem close_exactly_once (st : St) :
    ((Iter.close ⟨some st⟩).2).countP isCloseElementsEv =
      (if st.ce.mElements.isSome then 1 else 0) ∧
    ((Iter.close ⟨some st⟩).2).countP isReleaseCharsEv =
      (if st.ce.mChars.isSome then 1 else 0) ∧
    ((Iter.close ⟨some st⟩).2).countP isDeleteGlobalRefEv =
      (if st.ce.mChars.isSome then 1 else 0) ∧
    (Iter.close ⟨some st⟩).1 = ⟨none⟩ ∧
    Iter.close (Iter.close ⟨some st⟩).1 = (⟨none⟩, []) ∧
    Iter.close ⟨some ⟨CE.init, st.fresh⟩⟩ = (⟨none⟩, []) := by
  obtain ⟨⟨me, ms, mc⟩, k⟩ := st
  cases me <;> cases mc <;>
    simp [Iter.close, closeElementsNative, CE.release, CE.init,
      isCloseElementsEv, isReleaseCharsEv, isDeleteGlobalRefEv,
      List.countP_cons, List.countP_nil]

/-- Claim C8: with a readable string, a never-bound iterator gets a fresh
engine iterator through ucol_openElements (status from the open call),
while an already-bound iterator keeps its engine handle and is
repositioned through ucol_setText, with no ucol_openElements call. -/
theorem start_engine_reuse (icu : Icu) (env : Env) (st : St) (s : JString)
    (c : Option UCollator) (chars : List UChar)
    (h : env.getStringChars s = some chars) :
    (st.ce.mElements = none →
      (CE.start icu env st s c).1.ce.mElements = some st.fresh ∧
      (CE.start icu env st s c).2.1 = icu.openElemsStatus c chars ∧
      ((CE.start icu env st s c).2.2).countP isOpenElementsEv = 1 ∧
      ((CE.start icu env st s c).2.2).countP isSetTextEv = 0) ∧
    (∀ h0 : Nat, st.ce.mElements = some h0 →
      (CE.start icu env st s c).1.ce.mElements = some h0 ∧
      (CE.start icu env st s c).2.1 = icu.setTextStatus h0 chars ∧
      ((CE.start icu env st s c).2.2).countP isOpenElementsEv = 0 ∧
      ((CE.start icu env st s c).2.2).countP isSetTextEv = 1) := by
  obtain ⟨⟨me, ms, mc⟩, k⟩ := st
  cases me <;> cases mc <;>
    simp [CE.start, CE.release, h, isOpenElementsEv, isSetTextEv,
      List.countP_cons, List.countP_nil]

/-- Evaluation of start_engine_reuse on concrete bound and unbound
states. -/
theorem start_engine_reuse_witness :
    envW.getStringChars 2 = some [2] ∧
    (CE.start icuW envW ⟨CE.init, 0⟩ 2 (some 4)).1.ce.mElements = some 0 ∧
    (CE.start icuW envW ⟨⟨some 5, some 3, some [3]⟩, 9⟩ 2 (some 4)).1.ce.mElements = some 5 :=
  ⟨by decide,
    ((start_engine_reuse icuW envW ⟨CE.init, 0⟩ 2 (some 4) [2] (by decide)).1 rfl).1,
    ((start_engine_reuse icuW envW ⟨⟨some 5, some 3, some [3]⟩, 9⟩ 2 (some 4) [2]
      (by decide)).2 5 rfl).1⟩

/-- Claim C9: the failure sentinels of the handle-creating operations
are not uniform — openCollator yields 0 on an unreadable locale,
openCollatorFromRules yields -1 on an unreadable rule string, and
getCollationElementIterator yields -1 on an unreadable source but 0 when
the engine reports a non-zero status. -/
theorem failure_sentinel_values (icu : Icu) (env : Env) (c : UCollator)
    (loc rules src src2 : JString) (mode strength ceAddr : Int) (chars2 : List UChar)
    (hl : env.getUtfChars loc = none)
    (hr : env.getStringChars rules = none)
    (hs : env.getStringChars src = none)
    (h2 : env.getStringChars src2 = some chars2)
    (hstat : icu.openElemsStatus (some c) chars2 ≠ U_ZERO_ERROR) :
    NativeCollation_openCollator icu env loc = 0 ∧
    NativeCollation_openCollatorFromRules icu env rules mode strength = -1 ∧
    (NativeCollation_getCollationElementIterator icu env c src ceAddr).1 = -1 ∧
    (NativeCollation_getCollationElementIterator icu env c src2 ceAddr).1 = 0 ∧
    (0 : Int) ≠ -1 := by
  refine ⟨by simp [NativeCollation_openCollator, hl],
    by simp [NativeCollation_openCollatorFromRules, hr],
    by simp [NativeCollation_getCollationElementIterator, hs], ?_, by decide⟩
  simp [NativeCollation_getCollationElementIterator, h2, CE.start, CE.release,
    CE.init, hstat]

/-- Evaluation of failure_sentinel_values on concrete strings. -/
theorem failure_sentinel_values_witness :
    envW.getUtfChars 1 = none ∧
    envW.getStringChars 0 = none ∧
    envW.getStringChars 2 = some [2] ∧
    icuW.openElemsStatus (some 4) [2] ≠ U_ZERO_ERROR ∧
    NativeCollation_openCollator icuW envW 1 = 0 ∧
    (NativeCollation_getCollationElementIterator icuW envW 4 2 77).1 = 0 :=
  ⟨by decide, by decide, by decide, by decide,
    (failure_sentinel_values icuW envW 4 1 0 0 2 0 0 77 [2]
      (by decide) (by decide) (by decide) (by decide) (by decide)).1,
    (failure_sentinel_values icuW envW 4 1 0 0 2 0 0 77 [2]
      (by decide) (by decide) (by decide) (by decide) (by decide)).2.2.2.1⟩

theorem sortKeyTwoPhase_key (icu : Icu) (collator : UCollator) (src : List UChar) :
    (sortKeyTwoPhase icu collator src).1 = (icu.sortKey collator src).length ∧
    (sortKeyTwoPhase icu collator src).2.1 = icu.sortKey collator src ∧
    ((sortKeyTwoPhase icu collator src).2.2 = true ↔
      127 < (icu.sortKey collator src).length) := by
  by_cases hlen : (icu.sortKey collator src).length ≤ 127
  · simp [sortKeyTwoPhase, ucol_getSortKey, hlen, Nat.not_lt.mpr hlen]
  · simp [sortKeyTwoPhase, ucol_getSortKey, hlen, Nat.not_le.mp hlen]

theorem getSortKey_eq (icu : Icu) (env : Env) (collator : UCollator) (source : JString)
    (chars : List UChar) (h : env.getStringChars source = some chars) :
    NativeCollation_getSortKey icu env collator source =
      if (icu.sortKey collator chars).length = 0 then SortKeyResult.nullArray
      else SortKeyResult.bytes (icu.sortKey collator chars) := by
  have h1 := sortKeyTwoPhase_key icu collator chars
  simp [NativeCollation_getSortKey, h, h1.1, h1.2.1, List.take_length]

/-- Claim C5: the two-phase encode returns the same bytes as a direct
single encode into a buffer sized to the whole key — the full key, never
truncated — and the heap buffer is allocated exactly when the required
size exceeds the 127-byte stack capacity. -/
theorem two_phase_sort_key (icu : Icu) (collator : UCollator) (src : List UChar) :
    (sortKeyTwoPhase icu collator src).2.1 = directSortKey icu collator src ∧
    (sortKeyTwoPhase icu collator src).1 = (icu.sortKey collator src).length ∧
    ((sortKeyTwoPhase icu collator src).2.2 = true ↔
      127 < (icu.sortKey collator src).length) ∧
    directSortKey icu collator src = icu.sortKey collator src := by
  have h1 := sortKeyTwoPhase_key icu collator src
  have hd : directSortKey icu collator src = icu.sortKey collator src := by
    simp [directSortKey, ucol_getSortKey]
  exact ⟨by rw [h1.2.1, hd], h1.1, h1.2.2, hd⟩

/-- Claim C6: with a readable source, getSortKey returns the non-error
NULL array exactly when the computed key length is zero; an unreadable
source returns the distinct error result instead. -/
theorem empty_key_iff_zero_length (icu : Icu) (env : Env) (collator : UCollator)
    (source : JString) :
    (∀ chars, env.getStringChars source = some chars →
      (NativeCollation_getSortKey icu env collator source = SortKeyResult.nullArray ↔
        (icu.sortKey collator chars).length = 0)) ∧
    (env.getStringChars source = none →
      NativeCollation_getSortKey icu env collator source = SortKeyResult.err) ∧
    SortKeyResult.err ≠ SortKeyResult.nullArray ∧
    (∀ b, SortKeyResult.err ≠ SortKeyResult.bytes b) := by
  refine ⟨?_, ?_, by decide, by intro b h; cases h⟩
  · intro chars h
    rw [getSortKey_eq icu env collator source chars h]
    by_cases h0 : (icu.sortKey collator chars).length = 0 <;> simp [h0]
  · intro h
    simp [NativeCollation_getSortKey, h]

/-- Evaluation of empty_key_iff_zero_length on a concrete readable
string with an empty key. -/
theorem empty_key_iff_zero_length_witness :
    envW.getStringChars 1 = some [] ∧
    (NativeCollation_getSortKey icuW envW 4 1 = SortKeyResult.nullArray ↔
      (icuW.sortKey 4 ([] : List UChar)).length = 0) :=
  ⟨by decide, (empty_key_iff_zero_length icuW envW 4 1).1 [] (by decide)⟩

/-- Claim C4: whenever getSortKey succeeds on both strings and the
engine's own sort keys order the two texts as its strcoll does, the
byte-lexicographic comparison of the two returned keys agrees with the
wrapper compare. -/
theorem sort_key_orders_compare (icu : Icu) (env : Env) (c : UCollator)
    (a b : JString) (la lb : List UChar) (ka kb : List Nat)
    (hA : env.getStringChars a = some la) (hB : env.getStringChars b = some lb)
    (hka : NativeCollation_getSortKey icu env c a = SortKeyResult.bytes ka)
    (hkb : NativeCollation_getSortKey icu env c b = SortKeyResult.bytes kb)
    (hcoh : byteLexCompare (icu.sortKey c la) (icu.sortKey c lb) =
      signOrd (icu.strcoll c la lb)) :
    byteLexCompare ka kb = signOrd (NativeCollation_compare icu env c a b) := by
  rw [getSortKey_eq icu env c a la hA] at hka
  rw [getSortKey_eq icu env c b lb hB] at hkb
  have hka2 : ka = icu.sortKey c la := by
    by_cases h0 : (icu.sortKey c la).length = 0
    · simp [h0] at hka
    · rw [if_neg h0] at hka
      injection hka with h2
      exact h2.symm
  have hkb2 : kb = icu.sortKey c lb := by
    by_cases h0 : (icu.sortKey c lb).length = 0
    · simp [h0] at hkb
    · rw [if_neg h0] at hkb
      injection hkb with h2
      exact h2.symm
  have hcomp : NativeCollation_compare icu env c a b = icu.strcoll c la lb := by
    simp [NativeCollation_compare, hA, hB]
  rw [hka2, hkb2, hcomp]
  exact hcoh

/-- Evaluation of sort_key_orders_compare on concrete strings. -/
theorem sort_key_orders_compare_witness :
    NativeCollation_getSortKey icuW envW 4 2 = SortKeyResult.bytes [2] ∧
    byteLexCompare [2] [3] = signOrd (NativeCollation_compare icuW envW 4 2 3) :=
  ⟨by decide,
    sort_key_orders_compare icuW envW 4 2 3 [2] [3] [2] [3]
      (by decide) (by decide) (by decide) (by decide) (by decide)⟩

theorem deltaOkB_append (f : Ev → Int) (t u : List Ev) : ∀ n : Int,
    deltaOkB f n (t ++ u) = (deltaOkB f n t && deltaOkB f (n + (t.map f).sum) u) := by
  induction t with
  | nil => intro n; simp [deltaOkB]
  | cons e t ih =>
      intro n
      simp [deltaOkB, ih (n + f e), Bool.and_assoc, add_assoc, List.map_cons,
        List.sum_cons]

theorem step_ok (icu : Icu) (env : Env) (it : Iter) (op : Op) (hI : InvI it) :
    InvI (it.step icu env op).1 ∧
    deltaOkB pinDelta (pinsOf it) (it.step icu env op).2 = true ∧
    deltaOkB grefDelta (pinsOf it) (it.step icu env op).2 = true ∧
    pinned (it.step icu env op).2 = pinsOf (it.step icu env op).1 - pinsOf it ∧
    grefs (it.step icu env op).2 = pinsOf (it.step icu env op).1 - pinsOf it := by
  obtain ⟨a⟩ := it
  cases a with
  | none =>
      cases op <;>
        simp [Iter.step, Iter.close, InvI, pinsOf, pinned, grefs, deltaOkB]
  | some st =>
      obtain ⟨⟨me, ms, mc⟩, k⟩ := st
      simp [InvI, consistentCE] at hI
      cases op with
      | close =>
          cases mc <;> cases ms <;> simp at hI <;> cases me <;>
            simp [Iter.step, Iter.close, closeElementsNative, CE.release, InvI,
              pinsOf, pinsOfCE, pinned, grefs, deltaOkB, pinDelta, grefDelta]
      | start s c =>
          cases hr : env.getStringChars s with
          | none =>
              cases mc <;> cases ms <;> simp at hI <;> cases me <;>
                simp [Iter.step, CE.start, CE.release, hr, InvI, consistentCE,
                  pinsOf, pinsOfCE, pinned, grefs, deltaOkB, pinDelta, grefDelta]
          | some chars =>
              cases mc <;> cases ms <;> simp at hI <;> cases me <;>
                simp [Iter.step, CE.start, CE.release, hr, InvI, consistentCE,
                  pinsOf, pinsOfCE, pinned, grefs, deltaOkB, pinDelta, grefDelta]

theorem run_ok (icu : Icu) (env : Env) : ∀ (ops : List Op) (it : Iter), InvI it →
    deltaOkB pinDelta (pinsOf it) (Iter.run icu env it ops).2 = true ∧
    deltaOkB grefDelta (pinsOf it) (Iter.run icu env it ops).2 = true ∧
    pinned (Iter.run icu env it ops).2 =
      pinsOf (Iter.run icu env it ops).1 - pinsOf it ∧
    grefs (Iter.run icu env it ops).2 =
      pinsOf (Iter.run icu env it ops).1 - pinsOf it ∧
    InvI (Iter.run icu env it ops).1 := by
  intro ops
  induction ops with
  | nil => intro it hI; simp [Iter.run, deltaOkB, pinned, grefs, hI]
  | cons op ops ih =>
      intro it hI
      have hstep := step_ok icu env it op hI
      have hrest := ih (it.step icu env op).1 hstep.1
      have hrun : Iter.run icu env it (op :: ops) =
          ((Iter.run icu env (it.step icu env op).1 ops).1,
            (it.step icu env op).2 ++ (Iter.run icu env (it.step icu env op).1 ops).2) := rfl
      rw [hrun]
      have hsum : pinsOf it + ((it.step icu env op).2.map pinDelta).sum =
          pinsOf (it.step icu env op).1 := by
        have := hstep.2.2.2.1
        simp [pinned] at this
        omega
      have hsumg : pinsOf it + ((it.step icu env op).2.map grefDelta).sum =
          pinsOf (it.step icu env op).1 := by
        have := hstep.2.2.2.2
        simp [grefs] at this
        omega
      refine ⟨?_, ?_, ?_, ?_, hrest.2.2.2.2⟩
      · rw [deltaOkB_append, hsum, hstep.2.1, hrest.1]
        rfl
      · rw [deltaOkB_append, hsumg, hstep.2.2.1, hrest.2.1]
        rfl
      · have h1 := hstep.2.2.2.1
        have h2 := hrest.2.2.1
        simp only [pinned, List.map_append, List.sum_append] at h1 h2 ⊢
        omega
      · have h1 := hstep.2.2.2.2
        have h2 := hrest.2.2.2.1
        simp only [grefs, List.map_append, List.sum_append] at h1 h2 ⊢
        omega

theorem run_append (icu : Icu) (env : Env) (ops1 ops2 : List Op) : ∀ it : Iter,
    Iter.run icu env it (ops1 ++ ops2) =
      ((Iter.run icu env (Iter.run icu env it ops1).1 ops2).1,
        (Iter.run icu env it ops1).2 ++
          (Iter.run icu env (Iter.run icu env it ops1).1 ops2).2) := by
  induction ops1 with
  | nil => intro it; simp [Iter.run]
  | cons op ops ih => intro it; simp [Iter.run, ih, List.append_assoc]

theorem run_single_close_addr (icu : Icu) (env : Env) (it : Iter) :
    (Iter.run icu env it [Op.close]).1 = ⟨none⟩ := by
  obtain ⟨a⟩ := it
  cases a <;> rfl

/-- Claim C1: along every sequence of start/setText/close operations on
an iterator (setText is start with no collator supplied), the running
count of outstanding chars pins — and of outstanding global string
references — stays between 0 and 1 at every point of the event trace, so
a held pin is always released before a replacement is acquired; and a
trailing close leaves zero outstanding pins and references. -/
theorem pin_discipline (icu : Icu) (env : Env) (ops : List Op) :
    deltaOkB pinDelta 0 (Iter.run icu env ⟨some ⟨CE.init, 0⟩⟩ ops).2 = true ∧
    deltaOkB grefDelta 0 (Iter.run icu env ⟨some ⟨CE.init, 0⟩⟩ ops).2 = true ∧
    pinned (Iter.run icu env ⟨some ⟨CE.init, 0⟩⟩ (ops ++ [Op.close])).2 = 0 ∧
    grefs (Iter.run icu env ⟨some ⟨CE.init, 0⟩⟩ (ops ++ [Op.close])).2 = 0 := by
  have hInv : InvI (⟨some ⟨CE.init, 0⟩⟩ : Iter) := by simp [InvI, consistentCE, CE.init]
  have h0 : pinsOf (⟨some ⟨CE.init, 0⟩⟩ : Iter) = 0 := by simp [pinsOf, pinsOfCE, CE.init]
  have h1 := run_ok icu env ops ⟨some ⟨CE.init, 0⟩⟩ hInv
  have h2 := run_ok icu env (ops ++ [Op.close]) ⟨some ⟨CE.init, 0⟩⟩ hInv
  have h3 : (Iter.run icu env ⟨some ⟨CE.init, 0⟩⟩ (ops ++ [Op.close])).1 = ⟨none⟩ := by
    rw [run_append icu env ops [Op.close]]
    exact run_single_close_addr icu env _
  have h4 : pinsOf (⟨none⟩ : Iter) = 0 := rfl
  refine ⟨?_, ?_, ?_, ?_⟩
  · have := h1.1
    rwa [h0] at this
  · have := h1.2.1
    rwa [h0] at this
  · have := h2.2.2.1
    rw [h0, h3, h4] at this
    omega
  · have := h2.2.2.2.1
    rw [h0, h3, h4] at this
    omega
